import Mathlib

/-
Verification of the needle neural-network layer library
(python/needle/nn.py, python/needle/data.py) against its
natural-language specification.

The development shallowly embeds the parts of the code the claims are
about:

* the module composite (`Parameter` leaves, `Module` nodes, nested
  dict/list/tuple containers) and its reflective walks `_unpack_params`
  and `_child_modules`, together with the in-place `train()` / `eval()`
  mode switches;
* the layer forwards the claims mention (`Dropout`, `BatchNorm1d`,
  `RNNCell`, `LSTMCell`, `GRUCell`, `Conv`) as pure functions on
  matrices `Fin m → Fin n → ℚ`, with the substrate's transcendental
  functions (`exp`, `tanh`, the square root used by `** 0.5`) passed in
  as opaque function arguments;
* the sequence wrappers (`RNN.forward`, `LSTM.forward`, `GRU.forward`)
  at the level of lists of per-timestep tensors, polymorphic in the
  tensor type (the Python loop never inspects the tensors themselves);
* the `DataLoader` batching order (`np.array_split` over
  `range(batch_size, len(dataset), batch_size)`).
-/

namespace Needle

/-! ### The module value tree (nn.py, `_unpack_params` / `_child_modules`)

A Python attribute value reachable from a module's `__dict__` is either a
`Parameter` (a tensor leaf flagged trainable, identified here by a
payload), a `Module` (its `training : Bool` flag plus its `__dict__`,
a name-keyed mapping in declaration/insertion order), a `dict`, a
`list`/`tuple`, or some other value the reflective walks ignore
(plain tensors, ints, strings, ...). -/

mutual

inductive Value : Type where
  | param : ℕ → Value
  | mod : Bool → Fields → Value
  | dict : Fields → Value
  | listv : ValList → Value
  | other : ℕ → Value

inductive Fields : Type where
  | nil : Fields
  | cons : String → Value → Fields → Fields

inductive ValList : Type where
  | nil : ValList
  | cons : Value → ValList → ValList

end

mutual

/-- `_unpack_params(value)` (nn.py lines 15–31).  A `Parameter` is returned
as a singleton; a `Module` contributes `value.parameters()`, which is
`_unpack_params(self.__dict__)` (nn.py lines 57–59); a `dict` contributes
the walk of its values in insertion order; a `list`/`tuple` the walk of
its elements in order; anything else contributes nothing. -/
def unpackParams : Value → List ℕ
  | .param p => [p]
  | .mod _ fs => unpackParamsFields fs
  | .dict fs => unpackParamsFields fs
  | .listv vs => unpackParamsList vs
  | .other _ => []

/-- The `for k, v in value.items(): params += _unpack_params(v)` loop. -/
def unpackParamsFields : Fields → List ℕ
  | .nil => []
  | .cons _ v fs => unpackParams v ++ unpackParamsFields fs

/-- The `for v in value: params += _unpack_params(v)` loop. -/
def unpackParamsList : ValList → List ℕ
  | .nil => []
  | .cons v vs => unpackParams v ++ unpackParamsList vs

end

mutual

/-- `_child_modules(value)` (nn.py lines 34–50): a `Module` contributes
itself followed by `_child_modules(value.__dict__)`; containers are
walked in order; anything else contributes nothing. -/
def childModules : Value → List Value
  | .param _ => []
  | .mod b fs => .mod b fs :: childModulesFields fs
  | .dict fs => childModulesFields fs
  | .listv vs => childModulesList vs
  | .other _ => []

def childModulesFields : Fields → List Value
  | .nil => []
  | .cons _ v fs => childModules v ++ childModulesFields fs

def childModulesList : ValList → List Value
  | .nil => []
  | .cons v vs => childModules v ++ childModulesList vs

end

mutual

/-- Spec-side description of `parameters()`: the `Parameter` leaves of the
tree, collected by a depth-first walk of the declared fields in
declaration order, containers walked in their natural order,
non-Parameter non-Module non-container fields ignored. -/
def dfsParamLeaves : Value → List ℕ
  | .param p => [p]
  | .mod _ fs => dfsParamLeavesFields fs
  | .dict fs => dfsParamLeavesFields fs
  | .listv vs => dfsParamLeavesList vs
  | .other _ => []

def dfsParamLeavesFields : Fields → List ℕ
  | .nil => []
  | .cons _ v fs => dfsParamLeaves v ++ dfsParamLeavesFields fs

def dfsParamLeavesList : ValList → List ℕ
  | .nil => []
  | .cons v vs => dfsParamLeaves v ++ dfsParamLeavesList vs

end

mutual

/-- Number of `Parameter` leaves of the tree carrying payload `p`
(spec side; in a tree every leaf is a distinct occurrence, so "each
reachable leaf exactly once" is "the returned list contains each payload
exactly as often as it occurs in the tree"). -/
def paramOcc (p : ℕ) : Value → ℕ
  | .param q => if q = p then 1 else 0
  | .mod _ fs => paramOccFields p fs
  | .dict fs => paramOccFields p fs
  | .listv vs => paramOccList p vs
  | .other _ => 0

def paramOccFields (p : ℕ) : Fields → ℕ
  | .nil => 0
  | .cons _ v fs => paramOcc p v + paramOccFields p fs

def paramOccList (p : ℕ) : ValList → ℕ
  | .nil => 0
  | .cons v vs => paramOcc p v + paramOccList p vs

end

mutual

/-- Spec-side description of "every descendant Module, transitively, at
all depths and through containers" (including the node itself when it is
a module), in walk order. -/
def moduleNodes : Value → List Value
  | .param _ => []
  | .mod b fs => .mod b fs :: moduleNodesFields fs
  | .dict fs => moduleNodesFields fs
  | .listv vs => moduleNodesList vs
  | .other _ => []

def moduleNodesFields : Fields → List Value
  | .nil => []
  | .cons _ v fs => moduleNodes v ++ moduleNodesFields fs

def moduleNodesList : ValList → List Value
  | .nil => []
  | .cons v vs => moduleNodes v ++ moduleNodesList vs

end

mutual

/-- Sets the `training` flag of every module node of the tree to `b`,
leaving everything else unchanged.  `Module.train` (nn.py lines 69–72)
performs `self.training = True` followed by `m.training = True` for every
`m` in `self._children()`; since `_child_modules` enumerates exactly the
module nodes of the field tree (`childModules_eq_moduleNodes`) and the
ownership graph is a tree (spec §3: no cycles, single owner), the joint
effect of those in-place reference mutations is this node-wise map.
`Module.eval` (nn.py lines 64–67) is the same with `False`. -/
def setFlags (b : Bool) : Value → Value
  | .param p => .param p
  | .mod _ fs => .mod b (setFlagsFields b fs)
  | .dict fs => .dict (setFlagsFields b fs)
  | .listv vs => .listv (setFlagsList b vs)
  | .other n => .other n

def setFlagsFields (b : Bool) : Fields → Fields
  | .nil => .nil
  | .cons k v fs => .cons k (setFlags b v) (setFlagsFields b fs)

def setFlagsList (b : Bool) : ValList → ValList
  | .nil => .nil
  | .cons v vs => .cons (setFlags b v) (setFlagsList b vs)

end

/-- `Module.train()`: flags of the receiver and all descendants set true. -/
def trainModule (v : Value) : Value := setFlags true v

/-- `Module.eval()`: flags of the receiver and all descendants set false. -/
def evalModule (v : Value) : Value := setFlags false v

mutual

/-- `true` iff every module node of the tree has `training = b`. -/
def allModFlags (b : Bool) : Value → Bool
  | .param _ => true
  | .mod b' fs => (b' == b) && allModFlagsFields b fs
  | .dict fs => allModFlagsFields b fs
  | .listv vs => allModFlagsList b vs
  | .other _ => true

def allModFlagsFields (b : Bool) : Fields → Bool
  | .nil => true
  | .cons _ v fs => allModFlags b v && allModFlagsFields b fs

def allModFlagsList (b : Bool) : ValList → Bool
  | .nil => true
  | .cons v vs => allModFlags b v && allModFlagsList b vs

end

mutual

theorem unpackParams_eq_dfs : ∀ v : Value, unpackParams v = dfsParamLeaves v
  | .param _ => rfl
  | .mod _ fs => by
      rw [unpackParams, dfsParamLeaves, unpackParamsFields_eq_dfs fs]
  | .dict fs => by
      rw [unpackParams, dfsParamLeaves, unpackParamsFields_eq_dfs fs]
  | .listv vs => by
      rw [unpackParams, dfsParamLeaves, unpackParamsList_eq_dfs vs]
  | .other _ => rfl

theorem unpackParamsFields_eq_dfs :
    ∀ fs : Fields, unpackParamsFields fs = dfsParamLeavesFields fs
  | .nil => rfl
  | .cons _ v fs => by
      rw [unpackParamsFields, dfsParamLeavesFields,
        unpackParams_eq_dfs v, unpackParamsFields_eq_dfs fs]

theorem unpackParamsList_eq_dfs :
    ∀ vs : ValList, unpackParamsList vs = dfsParamLeavesList vs
  | .nil => rfl
  | .cons v vs => by
      rw [unpackParamsList, dfsParamLeavesList,
        unpackParams_eq_dfs v, unpackParamsList_eq_dfs vs]

end

mutual

theorem count_unpackParams :
    ∀ (p : ℕ) (v : Value), (unpackParams v).count p = paramOcc p v
  | p, .param q => by
      by_cases h : q = p <;>
        simp [unpackParams, paramOcc, h, List.count_cons, List.count_nil]
  | p, .mod _ fs => by
      rw [unpackParams, paramOcc, count_unpackParamsFields p fs]
  | p, .dict fs => by
      rw [unpackParams, paramOcc, count_unpackParamsFields p fs]
  | p, .listv vs => by
      rw [unpackParams, paramOcc, count_unpackParamsList p vs]
  | p, .other _ => by simp [unpackParams, paramOcc]

theorem count_unpackParamsFields :
    ∀ (p : ℕ) (fs : Fields), (unpackParamsFields fs).count p = paramOccFields p fs
  | p, .nil => rfl
  | p, .cons _ v fs => by
      rw [unpackParamsFields, paramOccFields, List.count_append,
        count_unpackParams p v, count_unpackParamsFields p fs]

theorem count_unpackParamsList :
    ∀ (p : ℕ) (vs : ValList), (unpackParamsList vs).count p = paramOccList p vs
  | p, .nil => rfl
  | p, .cons v vs => by
      rw [unpackParamsList, paramOccList, List.count_append,
        count_unpackParams p v, count_unpackParamsList p vs]

end

mutual

theorem childModules_eq_moduleNodes : ∀ v : Value, childModules v = moduleNodes v
  | .param _ => rfl
  | .mod b fs => by
      rw [childModules, moduleNodes, childModulesFields_eq_moduleNodes fs]
  | .dict fs => by
      rw [childModules, moduleNodes, childModulesFields_eq_moduleNodes fs]
  | .listv vs => by
      rw [childModules, moduleNodes, childModulesList_eq_moduleNodes vs]
  | .other _ => rfl

theorem childModulesFields_eq_moduleNodes :
    ∀ fs : Fields, childModulesFields fs = moduleNodesFields fs
  | .nil => rfl
  | .cons _ v fs => by
      rw [childModulesFields, moduleNodesFields,
        childModules_eq_moduleNodes v, childModulesFields_eq_moduleNodes fs]

theorem childModulesList_eq_moduleNodes :
    ∀ vs : ValList, childModulesList vs = moduleNodesList vs
  | .nil => rfl
  | .cons v vs => by
      rw [childModulesList, moduleNodesList,
        childModules_eq_moduleNodes v, childModulesList_eq_moduleNodes vs]

end

mutual

theorem allModFlags_setFlags : ∀ (b : Bool) (v : Value), allModFlags b (setFlags b v) = true
  | _, .param _ => rfl
  | b, .mod _ fs => by
      rw [setFlags, allModFlags, allModFlagsFields_setFlags b fs]
      simp
  | b, .dict fs => by
      rw [setFlags, allModFlags, allModFlagsFields_setFlags b fs]
  | b, .listv vs => by
      rw [setFlags, allModFlags, allModFlagsList_setFlags b vs]
  | _, .other _ => rfl

theorem allModFlagsFields_setFlags :
    ∀ (b : Bool) (fs : Fields), allModFlagsFields b (setFlagsFields b fs) = true
  | _, .nil => rfl
  | b, .cons _ v fs => by
      rw [setFlagsFields, allModFlagsFields, allModFlags_setFlags b v,
        allModFlagsFields_setFlags b fs]
      rfl

theorem allModFlagsList_setFlags :
    ∀ (b : Bool) (vs : ValList), allModFlagsList b (setFlagsList b vs) = true
  | _, .nil => rfl
  | b, .cons v vs => by
      rw [setFlagsList, allModFlagsList, allModFlags_setFlags b v,
        allModFlagsList_setFlags b vs]
      rfl

end

mutual

theorem setFlags_setFlags :
    ∀ (b c : Bool) (v : Value), setFlags b (setFlags c v) = setFlags b v
  | _, _, .param _ => rfl
  | b, c, .mod _ fs => by
      rw [setFlags, setFlags, setFlags, setFlagsFields_setFlags b c fs]
  | b, c, .dict fs => by
      rw [setFlags, setFlags, setFlags, setFlagsFields_setFlags b c fs]
  | b, c, .listv vs => by
      rw [setFlags, setFlags, setFlags, setFlagsList_setFlags b c vs]
  | _, _, .other _ => rfl

theorem setFlagsFields_setFlags :
    ∀ (b c : Bool) (fs : Fields), setFlagsFields b (setFlagsFields c fs) = setFlagsFields b fs
  | _, _, .nil => rfl
  | b, c, .cons _ v fs => by
      rw [setFlagsFields, setFlagsFields, setFlagsFields,
        setFlags_setFlags b c v, setFlagsFields_setFlags b c fs]

theorem setFlagsList_setFlags :
    ∀ (b c : Bool) (vs : ValList), setFlagsList b (setFlagsList c vs) = setFlagsList b vs
  | _, _, .nil => rfl
  | b, c, .cons v vs => by
      rw [setFlagsList, setFlagsList, setFlagsList,
        setFlags_setFlags b c v, setFlagsList_setFlags b c vs]

end

/-! ### The abstract `Module.__call__` dispatch (nn.py lines 53–75) -/

/-- The base `Module` class declares no `forward` implementation at all:
its class body is `__init__`, `parameters`, `_children`, `eval`, `train`
and `__call__` only (nn.py lines 53–75). -/
def baseModuleForward (α β : Type) : Option (α → β) := none

/-- `Module.__call__(*args)` is `self.forward(*args)` (nn.py lines 74–75):
if the concrete layer supplies a forward implementation it is applied,
otherwise the lookup of the missing operation fails fatally before any
computation happens, so no partial result is produced. -/
def moduleCall {α β : Type} (fwd : Option (α → β)) (x : α) : Except String β :=
  match fwd with
  | some f => Except.ok (f x)
  | none => Except.error "unimplemented operation"

/-! ### Claim theorems for the module composite -/

/-- C1: For every module tree, `parameters()` (`_unpack_params` over the
module's `__dict__`) returns every `Parameter` leaf reachable from the
root exactly once — the returned list contains each payload exactly as
often as it occurs as a leaf of the tree — as the ordered sequence
produced by a depth-first walk of the declared fields in declaration
order, containers walked in their natural order, other fields ignored.
The function is pure, so the order is stable across repeated calls with
no mutation in between. -/
theorem parameters_dfs_each_leaf_once (v : Value) :
    unpackParams v = dfsParamLeaves v ∧
    (∀ p : ℕ, (unpackParams v).count p = paramOcc p v) ∧
    unpackParams v = unpackParams v :=
  ⟨unpackParams_eq_dfs v, fun p => count_unpackParams p v, rfl⟩

/-- C2: `train()` sets the `training` flag of the receiver and of every
descendant module — `_child_modules` enumerates exactly the module nodes
of the tree, at all depths and through containers — to `true`; `eval()`
symmetrically sets them all to `false`; and neither call mutates anything
other than these flags (erasing all flags with `setFlags false`,
respectively `setFlags true`, the tree is unchanged).  Mode-dependent
layers read `self.training` on each forward call (`dropoutForward` /
`batchNormForward` below take the stored flag as their mode input), so
the very next forward call reflects the new mode. -/
theorem train_eval_set_all_flags (v : Value) :
    allModFlags true (trainModule v) = true ∧
    setFlags false (trainModule v) = setFlags false v ∧
    allModFlags false (evalModule v) = true ∧
    setFlags true (evalModule v) = setFlags true v ∧
    childModules v = moduleNodes v :=
  ⟨allModFlags_setFlags true v, setFlags_setFlags false true v,
    allModFlags_setFlags false v, setFlags_setFlags true false v,
    childModules_eq_moduleNodes v⟩

/-- C9: Calling the call operator on a base `Module` instance — whose
class supplies no layer-specific `forward` implementation — fails
immediately with the unimplemented-operation signal for every input, and
produces no partial result (the result is the error, not an `ok`). -/
theorem base_module_call_unimplemented (α β : Type) (x : α) :
    moduleCall (baseModuleForward α β) x = Except.error "unimplemented operation" :=
  rfl

/-! ### Matrix-level embedding of the layer forwards

Tensors of shape `(m, n)` are functions `Fin m → Fin n → ℚ`; the
substrate's transcendental functions (`ops.exp`, `ops.tanh`, the square
root performed by `** 0.5`) are passed in as function arguments. -/

def Mat (m n : ℕ) : Type := Fin m → Fin n → ℚ

/-- The substrate's matrix product `A @ B`. -/
def matMul {m k n : ℕ} (A : Mat m k) (B : Mat k n) : Mat m n :=
  fun i j => ∑ l, A i l * B l j

/-- `init.zeros` of shape `(m, n)`. -/
def matZero (m n : ℕ) : Mat m n := fun _ _ => 0

/-- `Sigmoid.forward` (nn.py line 138): `(1 + ops.exp(-x)) ** -1`. -/
def sigmoidF (exp : ℚ → ℚ) (x : ℚ) : ℚ := (1 + exp (-x))⁻¹

/-! #### Dropout (nn.py lines 218–232) -/

/-- The constructor `Dropout.__init__` stores `p` without validation
(default `0.5`); in particular it accepts `p = 1`. -/
structure DropoutLayer where
  p : ℚ

def mkDropout (p : ℚ) : DropoutLayer := ⟨p⟩

/-- `Dropout.forward`: in training mode, `mask * x / (1 - self.p)` where
`mask` is the Bernoulli keep-mask drawn by `init.randb` with
keep-probability `1 - p` (the sample is an explicit argument here, the
randomness living in the external init module); in eval mode, `x`
unchanged.  The division by `1 - p` is unguarded. -/
def dropoutForward {m n : ℕ} (training : Bool) (p : ℚ) (mask x : Mat m n) : Mat m n :=
  if training then fun i j => mask i j * x i j / (1 - p) else x

/-! #### BatchNorm1d (nn.py lines 157–186) -/

/-- Per-feature mean of the batch, across the batch dimension (spec side). -/
def batchMean {M N : ℕ} (x : Mat M N) (j : Fin N) : ℚ := (∑ i, x i j) / (M : ℚ)

/-- Per-feature variance of the batch, across the batch dimension (spec
side; population variance, as the code divides by `M`). -/
def batchVar {M N : ℕ} (x : Mat M N) (j : Fin N) : ℚ :=
  (∑ i, (x i j - batchMean x j) ^ 2) / (M : ℚ)

/-- `BatchNorm1d.forward` (nn.py lines 168–186), returning the output
together with the updated `running_mean` and `running_var`.  Training:
batch mean `x.sum(axes=0) / M`, running-average update with factor
`momentum` (on detached values — value-wise identical), batch variance
`((x - mean)**2).sum(axes=0) / M`, then `(x - mean) / (var + eps)**0.5`
scaled and shifted.  Eval: the stored running statistics are used in
place of the batch statistics and are not modified. -/
def batchNormForward {M N : ℕ} (sqrtF : ℚ → ℚ) (eps mom : ℚ)
    (w b rm rv : Fin N → ℚ) (training : Bool) (x : Mat M N) :
    Mat M N × (Fin N → ℚ) × (Fin N → ℚ) :=
  if training then
    let mean : Fin N → ℚ := fun j => (∑ i, x i j) / (M : ℚ)
    let rm1 : Fin N → ℚ := fun j => (1 - mom) * rm j + mom * mean j
    let var : Fin N → ℚ := fun j => (∑ i, (x i j - mean j) ^ 2) / (M : ℚ)
    let rv1 : Fin N → ℚ := fun j => (1 - mom) * rv j + mom * var j
    (fun i j => w j * ((x i j - mean j) / sqrtF (var j + eps)) + b j, rm1, rv1)
  else
    (fun i j => w j * ((x i j - rm j) / sqrtF (rv j + eps)) + b j, rm, rv)

/-! #### State defaulting in the recurrent cells (`h or zeros`) -/

/-- Modelled from the spec: truthiness of a substrate tensor
(`needle.autograd.Tensor`, not under src/).  The spec (§9) states that
the `h or zeros(...)` defaulting "conflates 'no state supplied' with
'state is an all-zero tensor'", i.e. a tensor is falsy exactly when all
its entries are zero. -/
def tensorTruthy {m n : ℕ} (t : Mat m n) : Bool := !(decide (∀ i j, t i j = 0))

/-- Python `h or d` for an optional tensor `h`: `None` and a falsy tensor
give `d`, a truthy tensor gives itself. -/
def orDefault {m n : ℕ} (h : Option (Mat m n)) (d : Mat m n) : Mat m n :=
  match h with
  | none => d
  | some t => if tensorTruthy t then t else d

/-- Python `h or d` where a present `h` is a pair (LSTMCell, nn.py line
495): a nonempty tuple is always truthy, so a provided pair is always
kept. -/
def orDefaultPair {α : Type} (h : Option α) (d : α) : α :=
  match h with
  | none => d
  | some t => t

/-! #### RNNCell (nn.py lines 295–363) -/

/-- The body of `RNNCell.forward` after the state has been resolved:
`X @ W_ih + h @ W_hh`, plus both broadcast biases when enabled, then the
nonlinearity `φ`. -/
def rnnCellBody {bs ins hid : ℕ} (φ : ℚ → ℚ) (W_ih : Mat ins hid) (W_hh : Mat hid hid)
    (useBias : Bool) (b_ih b_hh : Fin hid → ℚ) (X : Mat bs ins) (h : Mat bs hid) :
    Mat bs hid :=
  let X1 : Mat bs hid := fun i j => matMul X W_ih i j + matMul h W_hh i j
  let X2 : Mat bs hid := if useBias then fun i j => X1 i j + (b_ih j + b_hh j) else X1
  fun i j => φ (X2 i j)

/-- `RNNCell.forward` (nn.py lines 340–363): the line
`h = h or init.zeros(*shape, ...)` resolves the state, then the body runs. -/
def rnnCellForward {bs ins hid : ℕ} (φ : ℚ → ℚ) (W_ih : Mat ins hid) (W_hh : Mat hid hid)
    (useBias : Bool) (b_ih b_hh : Fin hid → ℚ) (X : Mat bs ins)
    (h : Option (Mat bs hid)) : Mat bs hid :=
  rnnCellBody φ W_ih W_hh useBias b_ih b_hh X (orDefault h (matZero bs hid))

/-! #### LSTMCell (nn.py lines 433–511) -/

theorem gateIdx4_lt {hid : ℕ} (j : Fin 4) (k : Fin hid) : j.val * hid + k.val < 4 * hid := by
  have h1 : j.val * hid + k.val < (j.val + 1) * hid := by
    have := k.isLt
    calc j.val * hid + k.val < j.val * hid + hid := by omega
    _ = (j.val + 1) * hid := by ring
  exact lt_of_lt_of_le h1 (Nat.mul_le_mul_right hid (by omega))

/-- Row-major flat position of entry `k` of chunk `j` after reshaping a
`(bs, 4*hid)` tensor to `(bs, 4, hid)`: element `(b, j, k)` of the
reshape reads flat column `j*hid + k`. -/
def gateIdx {hid : ℕ} (j : Fin 4) (k : Fin hid) : Fin (4 * hid) :=
  ⟨j.val * hid + k.val, gateIdx4_lt j k⟩

/-- `ops.split(A.reshape((bs, 4, hid)), axis=1)`, chunk `j`. -/
def chunk4 {bs hid : ℕ} (A : Mat bs (4 * hid)) (j : Fin 4) : Mat bs hid :=
  fun b k => A b (gateIdx j k)

/-- The body of `LSTMCell.forward` (nn.py lines 498–511) after the state
pair has been resolved: one affine transform per input stream
(`X @ W_ih + h0 @ W_hh`, `4*hid` wide, plus both broadcast biases when
enabled), split into four equal chunks in order `(i, f, g, o)`,
`sigmoid` on chunks 0, 1, 3 and `tanh` on chunk 2, then
`c_out = f * c0 + i * g` and `h_out = o * tanh(c_out)`. -/
def lstmCellBody {bs ins hid : ℕ} (exp tanhF : ℚ → ℚ)
    (W_ih : Mat ins (4 * hid)) (W_hh : Mat hid (4 * hid)) (useBias : Bool)
    (b_ih b_hh : Fin (4 * hid) → ℚ) (X : Mat bs ins)
    (hc : Mat bs hid × Mat bs hid) : Mat bs hid × Mat bs hid :=
  let h0 := hc.1
  let c0 := hc.2
  let X1 : Mat bs (4 * hid) := fun i j => matMul X W_ih i j + matMul h0 W_hh i j
  let X2 : Mat bs (4 * hid) := if useBias then fun i j => X1 i j + (b_ih j + b_hh j) else X1
  let gi : Mat bs hid := fun b k => sigmoidF exp (chunk4 X2 0 b k)
  let gf : Mat bs hid := fun b k => sigmoidF exp (chunk4 X2 1 b k)
  let gg : Mat bs hid := fun b k => tanhF (chunk4 X2 2 b k)
  let go : Mat bs hid := fun b k => sigmoidF exp (chunk4 X2 3 b k)
  let cOut : Mat bs hid := fun b k => gf b k * c0 b k + gi b k * gg b k
  (fun b k => go b k * tanhF (cOut b k), cOut)

/-- `LSTMCell.forward` (nn.py lines 477–511):
`h = h or ops.split(init.zeros(2, bs, hid), 0)` resolves the state pair
(a present tuple is always truthy), then the body runs. -/
def lstmCellForward {bs ins hid : ℕ} (exp tanhF : ℚ → ℚ)
    (W_ih : Mat ins (4 * hid)) (W_hh : Mat hid (4 * hid)) (useBias : Bool)
    (b_ih b_hh : Fin (4 * hid) → ℚ) (X : Mat bs ins)
    (h : Option (Mat bs hid × Mat bs hid)) : Mat bs hid × Mat bs hid :=
  lstmCellBody exp tanhF W_ih W_hh useBias b_ih b_hh X
    (orDefaultPair h (matZero bs hid, matZero bs hid))

/-! #### GRUCell (nn.py lines 640–719) -/

theorem gateIdx3_lt {hid : ℕ} (j : Fin 3) (k : Fin hid) : j.val * hid + k.val < 3 * hid := by
  have h1 : j.val * hid + k.val < (j.val + 1) * hid := by
    have := k.isLt
    calc j.val * hid + k.val < j.val * hid + hid := by omega
    _ = (j.val + 1) * hid := by ring
  exact lt_of_lt_of_le h1 (Nat.mul_le_mul_right hid (by omega))

/-- Chunk `j` of `ops.split(A.reshape((bs, 3, hid)), axis=1)`. -/
def chunk3 {bs hid : ℕ} (A : Mat bs (3 * hid)) (j : Fin 3) : Mat bs hid :=
  fun b k => A b ⟨j.val * hid + k.val, gateIdx3_lt j k⟩

/-- The body of `GRUCell.forward` (nn.py lines 699–719) after the state
has been resolved: two affine transforms (`X @ W_ih`, `h @ W_hh`, each
`3*hid` wide, each with its own broadcast bias when enabled), each split
into chunks `(r, z, n)`; `r = sigmoid(hr + xr)`, `z = sigmoid(hz + xz)`,
`n = tanh(r * hn + xn)`, `h' = (1 - z) * n + z * h`. -/
def gruCellBody {bs ins hid : ℕ} (exp tanhF : ℚ → ℚ)
    (W_ih : Mat ins (3 * hid)) (W_hh : Mat hid (3 * hid)) (useBias : Bool)
    (b_ih b_hh : Fin (3 * hid) → ℚ) (X : Mat bs ins) (h : Mat bs hid) :
    Mat bs hid :=
  let Xn : Mat bs (3 * hid) :=
    if useBias then fun i j => matMul X W_ih i j + b_ih j else matMul X W_ih
  let Hn : Mat bs (3 * hid) :=
    if useBias then fun i j => matMul h W_hh i j + b_hh j else matMul h W_hh
  let r : Mat bs hid := fun i k => sigmoidF exp (chunk3 Hn 0 i k + chunk3 Xn 0 i k)
  let z : Mat bs hid := fun i k => sigmoidF exp (chunk3 Hn 1 i k + chunk3 Xn 1 i k)
  let n : Mat bs hid := fun i k => tanhF (r i k * chunk3 Hn 2 i k + chunk3 Xn 2 i k)
  fun i k => (1 - z i k) * n i k + z i k * h i k

/-- `GRUCell.forward` (nn.py lines 683–719): `h = h or init.zeros(...)`
resolves the state, then the body runs. -/
def gruCellForward {bs ins hid : ℕ} (exp tanhF : ℚ → ℚ)
    (W_ih : Mat ins (3 * hid)) (W_hh : Mat hid (3 * hid)) (useBias : Bool)
    (b_ih b_hh : Fin (3 * hid) → ℚ) (X : Mat bs ins)
    (h : Option (Mat bs hid)) : Mat bs hid :=
  gruCellBody exp tanhF W_ih W_hh useBias b_ih b_hh X (orDefault h (matZero bs hid))

/-! #### Conv spatial dimensions (nn.py lines 243–292) -/

/-- Modelled from the spec: output spatial extent of the substrate's 2D
convolution primitive (`ops.conv`, not under src/; spec §6, §4.2).  A
stride-`s` convolution with a square `K×K` kernel over an input
zero-padded by `pad` on each side produces one output position per
kernel placement: `(H + 2*pad - K) / s + 1`. -/
def convOutDim (H K pad stride : ℕ) : ℕ := (H + 2 * pad - K) / stride + 1

/-- Spatial extent of `Conv.forward` (nn.py lines 283–292): `ops.conv`
is invoked with `padding = self.kernel_size // 2`. -/
def convForwardDim (H K stride : ℕ) : ℕ := convOutDim H K (K / 2) stride

/-! ### Supporting lemmas for the cell claims -/

theorem orDefault_some_matZero {m n : ℕ} (t : Mat m n) :
    orDefault (some t) (matZero m n) = t := by
  by_cases h : ∀ i j, t i j = 0
  · have hf : tensorTruthy t = false := by simp [tensorTruthy, h]
    funext i j
    simp only [orDefault, hf, Bool.false_eq_true, if_false, matZero]
    exact (h i j).symm
  · have ht : tensorTruthy t = true := by simp [tensorTruthy, h]
    simp [orDefault, ht]

/-- Spec-side single affine transform per input stream of `LSTMCell`:
`X·W_ih + h·W_hh`, `4×hidden` wide, plus both biases when enabled. -/
def lstmAffineSpec {bs ins hid : ℕ} (W_ih : Mat ins (4 * hid)) (W_hh : Mat hid (4 * hid))
    (useBias : Bool) (b_ih b_hh : Fin (4 * hid) → ℚ) (X : Mat bs ins) (h0 : Mat bs hid) :
    Mat bs (4 * hid) :=
  fun b j =>
    (∑ l, X b l * W_ih l j) + (∑ l, h0 b l * W_hh l j) +
      (if useBias then b_ih j + b_hh j else 0)

/-- Spec-side `LSTMCell` step: the four equal chunks of the affine output
are taken in the fixed order `(i, f, g, o)` — gate `i` is chunk 0, `f`
chunk 1, `g` chunk 2, `o` chunk 3 — with `sigmoid` on `i, f, o` and
`tanh` on `g`, then `c' = f·c + i·g` and `h' = o·tanh(c')`. -/
def lstmCellSpec {bs ins hid : ℕ} (exp tanhF : ℚ → ℚ)
    (W_ih : Mat ins (4 * hid)) (W_hh : Mat hid (4 * hid)) (useBias : Bool)
    (b_ih b_hh : Fin (4 * hid) → ℚ) (X : Mat bs ins) (h0 c0 : Mat bs hid) :
    Mat bs hid × Mat bs hid :=
  let A := lstmAffineSpec W_ih W_hh useBias b_ih b_hh X h0
  let gi : Mat bs hid := fun b k => sigmoidF exp (A b (gateIdx 0 k))
  let gf : Mat bs hid := fun b k => sigmoidF exp (A b (gateIdx 1 k))
  let gg : Mat bs hid := fun b k => tanhF (A b (gateIdx 2 k))
  let go : Mat bs hid := fun b k => sigmoidF exp (A b (gateIdx 3 k))
  let cN : Mat bs hid := fun b k => gf b k * c0 b k + gi b k * gg b k
  (fun b k => go b k * tanhF (cN b k), cN)

/-! ### Claim theorems for the layer forwards -/

/-- C3: For every input `X` and states `h, c`, `LSTMCell.forward`
computes one affine transform per input stream (`X·W_ih` and `h·W_hh`,
each `4×hidden` wide, plus both biases when enabled), splits the result
into four equal chunks in the fixed order `(i, f, g, o)` — each named
gate receiving exactly its positional chunk — applies `sigmoid` to
`i, f, o` and `tanh` to `g`, and returns `c' = f·c + i·g` and
`h' = o·tanh(c')`. -/
theorem lstm_cell_gate_split_order
    (bs ins hid : ℕ) (exp tanhF : ℚ → ℚ)
    (W_ih : Mat ins (4 * hid)) (W_hh : Mat hid (4 * hid)) (useBias : Bool)
    (b_ih b_hh : Fin (4 * hid) → ℚ) (X : Mat bs ins) (h0 c0 : Mat bs hid) :
    lstmCellForward exp tanhF W_ih W_hh useBias b_ih b_hh X (some (h0, c0)) =
      lstmCellSpec exp tanhF W_ih W_hh useBias b_ih b_hh X h0 c0 := by
  cases useBias with
  | false =>
    refine Prod.ext ?_ ?_ <;> funext b k <;>
      simp [lstmCellForward, lstmCellBody, lstmCellSpec, lstmAffineSpec,
        orDefaultPair, chunk4, matMul]
  | true =>
    refine Prod.ext ?_ ?_ <;> funext b k <;>
      simp [lstmCellForward, lstmCellBody, lstmCellSpec, lstmAffineSpec,
        orDefaultPair, chunk4, matMul]

/-- C4: One training-mode forward of `BatchNorm1d` on a batch updates the
stored running statistics exactly as
`running_mean' = (1-momentum)·running_mean + momentum·mean(B)` and
`running_var' = (1-momentum)·running_var + momentum·var(B)` (per-feature
statistics across the batch dimension) and normalizes with the batch
statistics; in eval mode the stored running statistics are used instead
and are not modified. -/
theorem batchnorm_running_average_update
    (M N : ℕ) (sqrtF : ℚ → ℚ) (eps mom : ℚ) (w b rm rv : Fin N → ℚ) (x : Mat M N) :
    (batchNormForward sqrtF eps mom w b rm rv true x).2.1
        = (fun j => (1 - mom) * rm j + mom * batchMean x j) ∧
    (batchNormForward sqrtF eps mom w b rm rv true x).2.2
        = (fun j => (1 - mom) * rv j + mom * batchVar x j) ∧
    (batchNormForward sqrtF eps mom w b rm rv true x).1
        = (fun i j => w j * ((x i j - batchMean x j) / sqrtF (batchVar x j + eps)) + b j) ∧
    (batchNormForward sqrtF eps mom w b rm rv false x).1
        = (fun i j => w j * ((x i j - rm j) / sqrtF (rv j + eps)) + b j) ∧
    (batchNormForward sqrtF eps mom w b rm rv false x).2.1 = rm ∧
    (batchNormForward sqrtF eps mom w b rm rv false x).2.2 = rv :=
  ⟨rfl, rfl, rfl, rfl, rfl, rfl⟩

/-- C7: In every cell forward whose hidden-state argument is missing, the
computation proceeds with an all-zero state of shape `(batch, hidden)`
(paired all-zero `(h, c)` for `LSTMCell`); and whenever a state IS
provided, the computation proceeds with exactly the provided state —
including an all-zero-valued one.  (Tensor truthiness is modelled from
the spec: an all-zero provided tensor is falsy, so `h or zeros` replaces
it by a fresh zero tensor of the same shape and value, and the provided
state is still, value for value, the state used; a provided LSTM tuple
is always truthy.) -/
theorem cell_missing_state_defaults_zero
    (bs ins hid : ℕ) (φ exp tanhF : ℚ → ℚ)
    (Wr_ih : Mat ins hid) (Wr_hh : Mat hid hid) (br_ih br_hh : Fin hid → ℚ)
    (Wg_ih : Mat ins (3 * hid)) (Wg_hh : Mat hid (3 * hid)) (bg_ih bg_hh : Fin (3 * hid) → ℚ)
    (Wl_ih : Mat ins (4 * hid)) (Wl_hh : Mat hid (4 * hid)) (bl_ih bl_hh : Fin (4 * hid) → ℚ)
    (useBias : Bool) (X : Mat bs ins) :
    rnnCellForward φ Wr_ih Wr_hh useBias br_ih br_hh X none
        = rnnCellBody φ Wr_ih Wr_hh useBias br_ih br_hh X (matZero bs hid) ∧
    (∀ t : Mat bs hid, rnnCellForward φ Wr_ih Wr_hh useBias br_ih br_hh X (some t)
        = rnnCellBody φ Wr_ih Wr_hh useBias br_ih br_hh X t) ∧
    gruCellForward exp tanhF Wg_ih Wg_hh useBias bg_ih bg_hh X none
        = gruCellBody exp tanhF Wg_ih Wg_hh useBias bg_ih bg_hh X (matZero bs hid) ∧
    (∀ t : Mat bs hid, gruCellForward exp tanhF Wg_ih Wg_hh useBias bg_ih bg_hh X (some t)
        = gruCellBody exp tanhF Wg_ih Wg_hh useBias bg_ih bg_hh X t) ∧
    lstmCellForward exp tanhF Wl_ih Wl_hh useBias bl_ih bl_hh X none
        = lstmCellBody exp tanhF Wl_ih Wl_hh useBias bl_ih bl_hh X
            (matZero bs hid, matZero bs hid) ∧
    (∀ hc : Mat bs hid × Mat bs hid,
      lstmCellForward exp tanhF Wl_ih Wl_hh useBias bl_ih bl_hh X (some hc)
        = lstmCellBody exp tanhF Wl_ih Wl_hh useBias bl_ih bl_hh X hc) := by
  refine ⟨rfl, fun t => ?_, rfl, fun t => ?_, rfl, fun hc => rfl⟩
  · rw [rnnCellForward, orDefault_some_matZero]
  · rw [gruCellForward, orDefault_some_matZero]

/-- C10: In training mode `Dropout.forward` computes `mask·x/(1-p)`; for
`0 ≤ p < 1` the result is the Bernoulli keep-mask product rescaled by
`1/(1-p)` and the operation is total.  The division is unguarded: at
`p = 1` — a value the constructor accepts — the divisor `1 - p` is `0`.
In eval mode the input is returned unchanged for every `p`. -/
theorem dropout_mask_scaling
    (m n : ℕ) (p : ℚ) (hp0 : 0 ≤ p) (hp1 : p < 1) (mask x : Mat m n) :
    dropoutForward true p mask x = (fun i j => 1 / (1 - p) * (mask i j * x i j)) ∧
    (∀ q : ℚ, dropoutForward false q mask x = x) ∧
    (∀ (mask' x' : Mat m n) (i : Fin m) (j : Fin n),
      dropoutForward true 1 mask' x' i j = mask' i j * x' i j / (1 - 1)) ∧
    (mkDropout 1).p = 1 ∧ (1 : ℚ) - 1 = 0 := by
  refine ⟨?_, fun q => rfl, fun mask' x' i j => rfl, rfl, by norm_num⟩
  funext i j
  simp only [dropoutForward, if_true]
  ring

theorem dropout_mask_scaling_witness :
    dropoutForward true 0 (matZero 1 1) (matZero 1 1)
        = (fun i j => 1 / (1 - 0) * (matZero 1 1 i j * matZero 1 1 i j)) ∧
    (∀ q : ℚ, dropoutForward false q (matZero 1 1) (matZero 1 1) = matZero 1 1) ∧
    (∀ (mask' x' : Mat 1 1) (i : Fin 1) (j : Fin 1),
      dropoutForward true 1 mask' x' i j = mask' i j * x' i j / (1 - 1)) ∧
    (mkDropout 1).p = 1 ∧ (1 : ℚ) - 1 = 0 :=
  dropout_mask_scaling 1 1 0 (by decide) (by decide) (matZero 1 1) (matZero 1 1)

/-- C6 counterexample: a `Conv` layer with `stride = 1` and the even
kernel size `2` on a `1×1` spatial input produces a `2×2` spatial
output — `pad = kernel_size // 2 = 1` gives `(1 + 2·1 - 2)/1 + 1 = 2`,
so "same" padding does not hold for every kernel size. -/
theorem conv_same_padding_counterexample :
    convForwardDim 1 2 1 = 2 ∧ convForwardDim 1 2 1 ≠ 1 := by decide

/-- C6 (amended): for every `Conv` layer with `stride = 1` and an odd
`kernel_size`, and every NCHW input with nonempty spatial dimensions,
the output spatial dimensions equal the input spatial dimensions, with
padding `kernel_size // 2`. -/
theorem conv_stride_one_preserves_dims_odd_kernel
    (H W K : ℕ) (hH : 1 ≤ H) (hW : 1 ≤ W) (hK : K % 2 = 1) :
    convForwardDim H K 1 = H ∧ convForwardDim W K 1 = W := by
  constructor <;>
    · simp only [convForwardDim, convOutDim, Nat.div_one]
      omega

theorem conv_stride_one_preserves_dims_odd_kernel_witness :
    1 ≤ 4 ∧ 1 ≤ 5 ∧ 3 % 2 = 1 ∧ (convForwardDim 4 3 1 = 4 ∧ convForwardDim 5 3 1 = 5) :=
  ⟨by decide, by decide, by decide,
    conv_stride_one_preserves_dims_odd_kernel 4 5 3 (by decide) (by decide) (by decide)⟩

/-! ### The sequence wrappers `RNN.forward` / `LSTM.forward` / `GRU.forward`

The Python layer/time loops never inspect the tensors they thread, so
they are embedded polymorphically in the tensor type `T`: the input
`X` is the list of per-timestep tensors produced by `ops.split(X, 0)`,
the initial state the list of per-layer tensors produced by
`ops.split(h0, 0)`, and `ops.stack` of a list of per-timestep results is
the list itself. -/

/-- The inner time loop of `RNN.forward` / `GRU.forward`:
`X_new = [(h := cell(X_t, h)) for X_t in X_new]`, returning the
per-timestep updated states and the final state `h`. -/
def cellScan {T : Type} (cell : T → T → T) : List T → T → List T × T
  | [], h => ([], h)
  | x :: xs, h =>
      let h1 := cell x h
      let r := cellScan cell xs h1
      (h1 :: r.1, r.2)

/-- The layer loop of `RNN.forward` (nn.py lines 406–430) over
`zip(self.rnn_cells, ops.split(h0, axis=0))`: each layer rebinds the
timestep sequence to its per-timestep outputs and appends its final
state to `h_n`; the result is `(output, h_n)`. -/
def rnnLayersLoop {T : Type} (cells : List ((T → T → T) × T)) (X : List T) :
    List T × List T :=
  match cells with
  | [] => (X, [])
  | (cell, h) :: rest =>
      let s := cellScan cell X h
      let r := rnnLayersLoop rest s.1
      (r.1, s.2 :: r.2)

/-- `RNN.forward` (nn.py lines 406–430). -/
def rnnForward {T : Type} (cells : List (T → T → T)) (X : List T) (h0 : List T) :
    List T × List T :=
  rnnLayersLoop (cells.zip h0) X

/-- `GRU.forward` (nn.py lines 758–785): the identical loop with
`gru_cells`. -/
def gruForward {T : Type} (cells : List (T → T → T)) (X : List T) (h0 : List T) :
    List T × List T :=
  rnnLayersLoop (cells.zip h0) X

/-- The inner time loop of `LSTM.forward`:
`for X_t in X: h, c = lstm_cell(X_t, (h, c)); X_next.append(h)`,
returning the per-timestep hidden outputs and the final `(h, c)`. -/
def lstmScan {T : Type} (cell : T → T × T → T × T) : List T → T × T → List T × (T × T)
  | [], hc => ([], hc)
  | x :: xs, hc =>
      let hc1 := cell x hc
      let r := lstmScan cell xs hc1
      (hc1.1 :: r.1, r.2)

/-- The layer loop of `LSTM.forward` (nn.py lines 550–588) over
`zip(self.lstm_cells, h0, c0)`: each layer rebinds the timestep sequence
and appends its final `h` and `c` to `h_n` and `c_n`. -/
def lstmLayersLoop {T : Type} (cells : List ((T → T × T → T × T) × (T × T)))
    (X : List T) : List T × (List T × List T) :=
  match cells with
  | [] => (X, ([], []))
  | (cell, hc) :: rest =>
      let s := lstmScan cell X hc
      let r := lstmLayersLoop rest s.1
      (r.1, (s.2.1 :: r.2.1, s.2.2 :: r.2.2))

/-- `LSTM.forward` (nn.py lines 550–588). -/
def lstmForward {T : Type} (cells : List (T → T × T → T × T)) (X : List T)
    (h0 c0 : List T) : List T × (List T × List T) :=
  lstmLayersLoop (cells.zip (h0.zip c0)) X

/-- Spec side: the per-timestep hidden states produced by iterating one
cell over the time axis, in time order. -/
def iterStates {T : Type} (cell : T → T → T) (h : T) : List T → List T
  | [] => []
  | x :: xs => cell x h :: iterStates cell (cell x h) xs

/-- Spec side: the state after the last timestep. -/
def finalState {T : Type} (cell : T → T → T) (h : T) (X : List T) : T :=
  X.foldl (fun a x => cell x a) h

/-- Spec side: per-timestep hidden outputs of iterating one LSTM cell. -/
def lstmIterStates {T : Type} (cell : T → T × T → T × T) (hc : T × T) :
    List T → List T
  | [] => []
  | x :: xs => (cell x hc).1 :: lstmIterStates cell (cell x hc) xs

/-- Spec side: the `(h, c)` state after the last timestep. -/
def lstmFinalState {T : Type} (cell : T → T × T → T × T) (hc : T × T)
    (X : List T) : T × T :=
  X.foldl (fun a x => cell x a) hc

theorem cellScan_fst {T : Type} (cell : T → T → T) :
    ∀ (X : List T) (h : T), (cellScan cell X h).1 = iterStates cell h X
  | [], _ => rfl
  | x :: xs, h => by
      simp only [cellScan, iterStates, cellScan_fst cell xs (cell x h)]

theorem cellScan_snd {T : Type} (cell : T → T → T) :
    ∀ (X : List T) (h : T), (cellScan cell X h).2 = finalState cell h X
  | [], _ => rfl
  | x :: xs, h => by
      simp only [cellScan, cellScan_snd cell xs (cell x h)]
      rfl

theorem lstmScan_fst {T : Type} (cell : T → T × T → T × T) :
    ∀ (X : List T) (hc : T × T), (lstmScan cell X hc).1 = lstmIterStates cell hc X
  | [], _ => rfl
  | x :: xs, hc => by
      simp only [lstmScan, lstmIterStates, lstmScan_fst cell xs (cell x hc)]

theorem lstmScan_snd {T : Type} (cell : T → T × T → T × T) :
    ∀ (X : List T) (hc : T × T), (lstmScan cell X hc).2 = lstmFinalState cell hc X
  | [], _ => rfl
  | x :: xs, hc => by
      simp only [lstmScan, lstmScan_snd cell xs (cell x hc)]
      rfl

/-- C5: `RNN`, `LSTM`, and `GRU` with `num_layers = 1` return exactly
what iterating the corresponding single cell over the time axis
produces: `output` is the per-timestep state sequence in time order and
the final-state result is the state after the last timestep (for every
cell step function, so in particular for `RNNCell`, `LSTMCell`,
`GRUCell`). -/
theorem single_layer_wrappers_reduce_to_cell_iteration
    (T : Type) (cell : T → T → T) (lcell : T → T × T → T × T)
    (X : List T) (h c : T) :
    rnnForward [cell] X [h] = (iterStates cell h X, [finalState cell h X]) ∧
    gruForward [cell] X [h] = (iterStates cell h X, [finalState cell h X]) ∧
    lstmForward [lcell] X [h] [c] =
      (lstmIterStates lcell (h, c) X,
        ([(lstmFinalState lcell (h, c) X).1], [(lstmFinalState lcell (h, c) X).2])) := by
  refine ⟨?_, ?_, ?_⟩
  · simp only [rnnForward, List.zip_cons_cons, List.zip_nil_left, rnnLayersLoop,
      cellScan_fst, cellScan_snd]
  · simp only [gruForward, List.zip_cons_cons, List.zip_nil_left, rnnLayersLoop,
      cellScan_fst, cellScan_snd]
  · simp only [lstmForward, List.zip_cons_cons, List.zip_nil_left, lstmLayersLoop,
      lstmScan_fst, lstmScan_snd]

/-! ### DataLoader batching (data.py lines 93–120) -/

/-- CPython `range(start, stop, step)` for positive `step`: element `k`
is `start + k*step`, and the length is `max(0, ceil((stop - start) / step))`,
which over ℕ (truncated subtraction) is `(stop - start + step - 1) / step`. -/
def pyRange (start stop step : ℕ) : List ℕ :=
  (List.range ((stop - start + step - 1) / step)).map fun k => start + k * step

/-- `np.array_split(xs, idxs)` with a list of split indices: with
division points `0 :: idxs ++ [len(xs)]`, sub-array `i` is
`xs[dp[i] : dp[i+1]]` for `i` up to `len(idxs)` inclusive (numpy keeps
the trailing slice). -/
def arraySplit {α : Type} (xs : List α) (idxs : List ℕ) : List (List α) :=
  (List.range (idxs.length + 1)).map fun i =>
    (xs.drop (((0 :: idxs) ++ [xs.length]).getD i 0)).take
      (((0 :: idxs) ++ [xs.length]).getD (i + 1) 0 - ((0 :: idxs) ++ [xs.length]).getD i 0)

/-- The index batching built by `DataLoader.__init__` on the
`shuffle=False` path (data.py lines 103–106):
`np.array_split(np.arange(len(dataset)), range(batch_size, len(dataset), batch_size))`.
Each iteration step yields the batch of samples at one index chunk
(`__next__`, data.py line 120), so every yielded batch has exactly the
length of its chunk. -/
def loaderOrdering (n bs : ℕ) : List (List ℕ) :=
  arraySplit (List.range n) (pyRange bs n bs)

/-- C8 counterexample: a dataset of 5 samples with `batch_size = 2` and
`shuffle=False` yields three batches of sizes 2, 2, 1 — the trailing
partial batch is yielded, not dropped, so not every batch has exactly
`batch_size` samples. -/
theorem dataloader_partial_batch_counterexample :
    (loaderOrdering 5 2).map List.length = [2, 2, 1] ∧
    ¬ (loaderOrdering 5 2).map List.length = [2, 2, 2] ∧
    5 % 2 ≠ 0 := by decide

/-- C8 (amended): for every dataset whose length `n` is not a multiple
of `batch_size`, iterating the non-shuffled DataLoader yields
`n / batch_size` batches of exactly `batch_size` samples followed by one
trailing partial batch of `n % batch_size` samples — the partial batch
is kept, not dropped. -/
theorem dataloader_keeps_trailing_partial_batch
    (n bs : ℕ) (hbs : 1 ≤ bs) (hnm : n % bs ≠ 0) :
    (loaderOrdering n bs).map List.length =
      List.replicate (n / bs) bs ++ [n % bs] := by
  have hbs0 : 0 < bs := hbs
  have hmod : bs * (n / bs) + n % bs = n := Nat.div_add_mod n bs
  have hrlt : n % bs < bs := Nat.mod_lt n hbs0
  have hr1 : 1 ≤ n % bs := Nat.one_le_iff_ne_zero.mpr hnm
  have hcnt : (n - bs + bs - 1) / bs = n / bs := by
    by_cases hn : bs ≤ n
    · have h1 : n - bs + bs - 1 = (n % bs - 1) + bs * (n / bs) := by omega
      rw [h1, Nat.add_mul_div_left _ _ hbs0, Nat.div_eq_of_lt (by omega)]
      omega
    · have h2 : n / bs = 0 := Nat.div_eq_of_lt (by omega)
      have h1 : n - bs + bs - 1 = bs - 1 := by omega
      rw [h1, Nat.div_eq_of_lt (by omega), h2]
  have hpy : pyRange bs n bs = (List.range (n / bs)).map fun k => bs + k * bs := by
    rw [pyRange, hcnt]
  have hlen : ((List.range (n / bs)).map fun k => bs + k * bs).length = n / bs := by
    simp
  have hdp : ∀ i ≤ n / bs,
      ((0 :: (List.range (n / bs)).map fun k => bs + k * bs) ++ [n]).getD i 0
        = i * bs := by
    intro i hi
    cases i with
    | zero =>
      rw [List.getD_append _ _ _ _ (by simp), List.getD_cons_zero]
      omega
    | succ j =>
      have hj : j < ((List.range (n / bs)).map fun k => bs + k * bs).length := by
        rw [hlen]; omega
      rw [List.getD_append _ _ _ _ (by simp [hlen]; omega), List.getD_cons_succ,
        List.getD_eq_getElem _ _ hj, List.getElem_map, List.getElem_range]
      ring
  have hdplast :
      ((0 :: (List.range (n / bs)).map fun k => bs + k * bs) ++ [n]).getD
        (n / bs + 1) 0 = n := by
    rw [List.getD_append_right _ _ _ _ (by simp [hlen])]
    simp [hlen]
  rw [loaderOrdering, hpy, arraySplit]
  simp only [List.length_range]
  apply List.ext_getElem
  · simp
  · intro i h1 h2
    simp only [List.getElem_map, List.getElem_range]
    rw [List.length_take, List.length_drop, List.length_range]
    have hi : i < n / bs + 1 := by
      simpa [hlen] using h1
    by_cases hiq : i < n / bs
    · rw [hdp i (by omega), hdp (i + 1) (by omega)]
      have hrhs : (List.replicate (n / bs) bs ++ [n % bs])[i] = bs := by
        rw [List.getElem_append_left (by simpa using hiq), List.getElem_replicate]
      rw [hrhs]
      have hle : (i + 1) * bs ≤ n := by
        calc (i + 1) * bs ≤ (n / bs) * bs := Nat.mul_le_mul_right bs (by omega)
        _ ≤ n := Nat.div_mul_le_self n bs
      have he1 : (i + 1) * bs = i * bs + bs := by ring
      rw [he1] at hle ⊢
      generalize i * bs = t at hle ⊢
      omega
    · have hieq : i = n / bs := by omega
      subst hieq
      rw [hdp (n / bs) le_rfl, hdplast]
      have hrhs : (List.replicate (n / bs) bs ++ [n % bs])[n / bs] = n % bs := by
        rw [List.getElem_append_right (by simp)]
        simp
      rw [hrhs]
      have h7 : n / bs * bs = bs * (n / bs) := Nat.mul_comm _ _
      rw [h7]
      generalize hg : bs * (n / bs) = t at hmod ⊢
      omega

theorem dataloader_keeps_trailing_partial_batch_witness :
    1 ≤ 2 ∧ 5 % 2 ≠ 0 ∧
    (loaderOrdering 5 2).map List.length = List.replicate (5 / 2) 2 ++ [5 % 2] :=
  ⟨by decide, by decide, dataloader_keeps_trailing_partial_batch 5 2 (by decide) (by decide)⟩

end Needle
